import Mathlib

/-!
Shallow embedding of `pycorr/stats/boot.py` (time-series block bootstrap).

Conventions:
- numpy integer arrays become `List ℤ` / `List (List ℤ)`; float arrays become
  rational lists (`List ℚ`), modelling real arithmetic exactly on the rational
  inputs the theorems use.
- The random draws of `numpy.random.randint` are externalized: functions take
  the drawn start matrix as an argument, with the hypothesis that each drawn
  start lies in `[0, npoints)` exactly as `randint(npoints, ...)` guarantees.
- Python exceptions become `Except PyError`.
-/

namespace PyCorr

/-- Python-level failures observable in `boot.py`, plus the
`UnsupportedMethodError` named by the specification's error taxonomy
(which the source never actually raises). -/
inductive PyError where
  | valueError
  | assertionError
  | indexError
  | unboundLocal
  | unsupportedMethod
  deriving DecidableEq, Repr

/-! ## CircularIndexSampler: `circ` and `bootstrap_ts_indexes` (boot.py lines 5-23) -/

/-- Elementwise action of `circ` on one start index: `circ` does
`start[maxlen - start < l] -= maxlen`, i.e. a start too close to the end is
replaced by the negative value `start - maxlen` so that the following `l`
consecutive offsets alias (via numpy negative indexing) to a wrapped block. -/
def circ1 (maxlen l : ℕ) (start : ℕ) : ℤ :=
  if (maxlen : ℤ) - (start : ℤ) < (l : ℤ) then (start : ℤ) - (maxlen : ℤ) else (start : ℤ)

/-- `circ(start, l, maxlen)` applied to the whole `(n_samples, N)` start matrix. -/
def circ (blocks : List (List ℕ)) (l maxlen : ℕ) : List (List ℤ) :=
  blocks.map (fun row => row.map (circ1 maxlen l))

/-- `expand_block = lambda block: np.array([block + ii for ii in xrange(l)]).flatten(order='F')`:
the `(l, N)` array flattened in Fortran order lists, for each start `s` in draw
order, the `l` consecutive values `s, s+1, ..., s+l-1`. -/
def expand_block (l : ℕ) (block : List ℤ) : List ℤ :=
  block.flatMap (fun s => (List.range l).map (fun ii : ℕ => s + (ii : ℤ)))

/-- `bootstrap_ts_indexes` for `method='circular'`, with the `randint` draws
(`blocks`, one row of `N = ceil(npoints/l)` starts per replicate) externalized.
Each row is circ-adjusted, block-expanded, and truncated to `npoints` entries
(`indexes[..., :npoints]`). -/
def bootstrap_ts_indexes (npoints l : ℕ) (blocks : List (List ℕ)) : List (List ℤ) :=
  (circ blocks l npoints).map (fun block => (expand_block l block).take npoints)

/-- `bootstrap_ts_indexes` including the `method` argument: the body computes
`indexes` only under `if method == 'circular':`, so for any other method the
trailing `return indexes[..., :npoints]` reads the unbound local `indexes`
and the call dies with an `UnboundLocalError`. -/
def bootstrap_ts_indexes_m (npoints l : ℕ) (blocks : List (List ℕ)) (method : String) :
    Except PyError (List (List ℤ)) :=
  if method = "circular" then Except.ok (bootstrap_ts_indexes npoints l blocks)
  else Except.error PyError.unboundLocal

/-- numpy negative-index aliasing on a length-`n` axis: an index `e` with
`-n ≤ e < 0` addresses position `e + n`. -/
def npAlias (n : ℕ) (e : ℤ) : ℤ :=
  if e < 0 then e + (n : ℤ) else e

/-! ## BlockLengthSelector: `b_star` (boot.py lines 31-73)

The per-series autocorrelations `rho_k = acf(data[:,ii])[1:]` and the
autocovariances from `ccovf` come from the external `statsmodels` library,
and the final estimate `(2*Ghat**2/DCBhat)**(1/3.) * n**(1/3.)` is an
irrational real power; the embedding therefore takes the acf vector
(together with the threshold `rho_k_crit`) and, for the clamping stage, the
raw per-series estimates, as inputs. -/

/-- The value Python binds to `mhat`: a scalar in the first (`num_insig`)
branch and the final `else`, but a whole numpy index array in the `elif`
branch, where `max(np.where(cond))` is `max` of the 1-tuple returned by
`np.where` and hence returns the index array itself. -/
inductive MhatR where
  | scalar (m : ℕ)
  | arr (ms : List ℕ)
  deriving DecidableEq, Repr

/-- `mhat` computation of `b_star` (lines 46-56) for one series, given
`rho = acf(series)[1:]` and `crit = rho_k_crit`:
`insig = |rho_k| < crit`; `num_insig[jj] = sum(insig[jj:jj+Kn])` for
`jj in range(int(mmax-Kn+1))` (Python slices clamp at the end of the list);
then the three-way branch of lines 50-56. -/
def mhat_calc (rho : List ℚ) (crit : ℚ) (Kn mmax : ℕ) : MhatR :=
  let insig : List Bool := rho.map (fun r => decide (|r| < crit))
  let num_insig : List ℕ := (List.range (mmax + 1 - Kn)).map
    (fun jj => ((insig.drop jj).take Kn).count true)
  if Kn ∈ num_insig then
    MhatR.scalar (num_insig.findIdx (fun c => c == Kn) + 1)
  else if (List.range rho.length).any (fun j => decide (crit < |rho.getD j 0|)) then
    MhatR.arr (((List.range rho.length).filter (fun j => decide (crit < |rho.getD j 0|))).map
      (fun j => j + 1))
  else MhatR.scalar 1

/-- `M = min(2*mhat, mmax)` (line 58). When `mhat` is an index array the
Python builtin `min` evaluates `mmax < 2*mhat`, an elementwise numpy
comparison whose truth value is ambiguous (a `ValueError`) unless the array
has exactly one element. Returns the pair `(mhat, M)` actually used. -/
def M_step (mh : MhatR) (mmax : ℕ) : Except PyError (ℕ × ℕ) :=
  match mh with
  | MhatR.scalar m => Except.ok (m, min (2 * m) mmax)
  | MhatR.arr ms =>
      if ms.length = 1 then Except.ok (ms.headD 0, min (2 * ms.headD 0) mmax)
      else Except.error PyError.valueError

/-- Lines 46-58 of `b_star` combined: from the acf vector and threshold to
the `(mhat, M)` pair, or the `ValueError` Python raises. -/
def computeMhatM (rho : List ℚ) (crit : ℚ) (Kn mmax : ℕ) : Except PyError (ℕ × ℕ) :=
  M_step (mhat_calc rho crit Kn mmax) mmax

/-- `np.round` on a scalar: round half to even (banker's rounding). -/
def roundHalfEven (q : ℚ) : ℤ :=
  let f : ℤ := ⌊q⌋
  let r : ℚ := q - (f : ℚ)
  if r < 1/2 then f
  else if 1/2 < r then f + 1
  else if 2 ∣ f then f else f + 1

/-- The final stage of `b_star` (lines 68-73): given the vector `BstarCB` of
raw per-series estimates computed by the loop (each
`(2*Ghat**2/DCBhat)**(1/3.) * n**(1/3.)`, supplied here as input), apply,
only under `if round:`, the two mask assignments
`BstarCB[BstarCB > Bmax] = Bmax` then `BstarCB[BstarCB < 1] = 1`, followed by
`np.round(BstarCB, out=BstarCB)`; with `round` false the vector is returned
untouched. -/
def b_star_clamp (BstarCB : List ℚ) (Bmax : ℚ) (round : Bool) : List ℚ :=
  if round then
    (((BstarCB.map (fun v => if Bmax < v then Bmax else v)).map
        (fun v => if v < 1 then 1 else v)).map
      (fun v => (roundHalfEven v : ℚ)))
  else BstarCB

/-! ## BootstrapRunner: `ts_boot` (boot.py lines 75-95) and
`run_boot_within_isc_diff` (lines 102-116)

A bundle member (`data` in `dlist`) is modelled as a list of spatial rows,
each a time course `List ℚ`; `data[..., boot_indx]` gathers along the time
axis in every spatial row. The statistic (`func` / `calc_mean_isc`, built
from `pycorr.funcs_correlate`, outside the bootstrap core) is an opaque
function argument returning one spatial vector per replicate. -/

/-- `d[e]` for a numpy axis of length `d.length`: nonnegative indices address
directly, negative indices alias from the end. (Out-of-range indices raise
`IndexError` in numpy; every use below is within range, cf. the entry-range
theorems, so the `getD` default is never reached on the traced paths.) -/
def npGet (d : List ℚ) (e : ℤ) : ℚ :=
  if 0 ≤ e then d.getD e.toNat 0 else d.getD (e + (d.length : ℤ)).toNat 0

/-- `data[..., boot_indx]` on one time course. -/
def npGather (d : List ℚ) (row : List ℤ) : List ℚ :=
  row.map (npGet d)

/-- One bundle member: spatial rows × timepoints (time is the last axis). -/
abbrev Member := List (List ℚ)

/-- `data.shape[-1]`: the time-axis length of a member. -/
def timeLen (d : Member) : ℕ := (d.headD []).length

/-- `data[..., boot_indx]` on a whole member: the same index row is applied
to every spatial row. -/
def gatherT (d : Member) (row : List ℤ) : Member :=
  d.map (fun tc => npGather tc row)

/-- `ts_boot(dlist, func, l, ...)` with the random start draws externalized
(the `indx_file` branch, which loads a persisted matrix instead, is the same
loop over whichever `indexes` it yields). The `assert` requires all members
to share a time-axis length; `out` is either the `[None]*n_samples` list
(here `none`), every slot of which the loop overwrites, or a caller array
whose first `len(indexes)` slots are assigned (`out[ii] = func(sample)`,
an `IndexError` if `out` is too short). -/
def ts_boot {β : Type} (dlist : List Member) (func : List Member → β) (l : ℕ)
    (blocks : List (List ℕ)) (out : Option (List β)) : Except PyError (List β) :=
  if (dlist.map timeLen).dedup.length = 1 then
    let npoints := timeLen (dlist.headD [])
    let indexes := bootstrap_ts_indexes npoints l blocks
    let results := indexes.map (fun row => func (dlist.map (fun d => gatherT d row)))
    match out with
    | none => Except.ok results
    | some o =>
        if results.length ≤ o.length then Except.ok (results ++ o.drop results.length)
        else Except.error PyError.indexError
  else Except.error PyError.assertionError

/-- `.transpose(swap_dims)` on a rectangular `(n_reps, spatial)` array:
spatial becomes the leading axis, replicates the trailing one. -/
def npTranspose (m : List (List ℚ)) : List (List ℚ) :=
  (List.range (m.headD []).length).map (fun s => m.map (fun row => row.getD s 0))

/-- `.mean(axis=-1)` over one replicate axis. -/
def npMean (xs : List ℚ) : ℚ := xs.sum / (xs.length : ℚ)

/-- The dictionary `run_boot_within_isc_diff` returns. -/
structure DiffResult where
  distA : List (List ℚ)
  distB : List (List ℚ)
  r : List ℚ
  p_gt : List ℚ
  p_ltq : List ℚ
  deriving DecidableEq, Repr

/-- `run_boot_within_isc_diff(A, B, l, n_reps, out_arr=None)` with the
statistic `calc_mean_isc` opaque and the start draws for the two `ts_boot`
calls externalized. The caller-supplied `out_arr` parameter is immediately
rebound to `np.zeros(out_shape)` (line 105) before any use, exactly as in
the source; each `ts_boot` call receives `out_arr.copy()`, i.e. the same
zero values. -/
def run_boot_within_isc_diff (calc_mean_isc : List Member → List ℚ)
    (A B : List Member) (l n_reps : ℕ) (blocksA blocksB : List (List ℕ))
    (out_arr : List (List ℚ)) : Except PyError DiffResult :=
  let out_arr := List.replicate n_reps (List.replicate (A.headD []).length (0 : ℚ))
  match ts_boot A calc_mean_isc l blocksA (some out_arr),
        ts_boot B calc_mean_isc l blocksB (some out_arr) with
  | Except.ok dA, Except.ok dB =>
      let distA := npTranspose dA
      let distB := npTranspose dB
      let r := (calc_mean_isc A).zipWith (fun a b => a - b) (calc_mean_isc B)
      let diffs := distA.zipWith (fun ra rb => ra.zipWith (fun a b => a - b) rb) distB
      let p_gt := diffs.map (fun ds => npMean (ds.map (fun d => if 0 < d then (1 : ℚ) else 0)))
      let p_ltq := diffs.map (fun ds => npMean (ds.map (fun d => if d ≤ 0 then (1 : ℚ) else 0)))
      Except.ok ⟨distA, distB, r, p_gt, p_ltq⟩
  | Except.error e, _ => Except.error e
  | _, Except.error e => Except.error e

/-! ## Theorems about the circular index sampler -/

/-- Shared bound: every entry of the returned index matrix is the sum of a
circ-adjusted start (either `s` with `s ≤ npoints - l`, or `s - npoints` with
`npoints - l < s < npoints`) and an offset `ii < l`. -/
theorem mem_bootstrap_bound {npoints l : ℕ} {blocks : List (List ℕ)}
    (hln : l ≤ npoints)
    (hs : ∀ row ∈ blocks, ∀ s ∈ row, s < npoints) :
    ∀ row ∈ bootstrap_ts_indexes npoints l blocks, ∀ e ∈ row,
      -(l : ℤ) + 1 ≤ e ∧ e ≤ (npoints : ℤ) - 1 := by
  intro row hrow e he
  unfold bootstrap_ts_indexes circ at hrow
  rw [List.mem_map] at hrow
  obtain ⟨block, hblock, rfl⟩ := hrow
  rw [List.mem_map] at hblock
  obtain ⟨r0, hr0, rfl⟩ := hblock
  have he' := List.mem_of_mem_take he
  simp [expand_block] at he'
  obtain ⟨s, hsmem, iz, hiz, rfl⟩ := he'
  have hsn : s < npoints := hs r0 hr0 s hsmem
  unfold circ1
  split <;> omega

/-- C9: with `method='circular'`, `1 ≤ l ≤ n`, and every drawn start in
`[0, n)`, every entry `e` of the matrix returned by `bootstrap_ts_indexes`
satisfies `-(l-1) ≤ e ≤ n-1`, so `e` taken modulo `n` (equivalently, via
numpy negative-index aliasing) is a valid time index into a length-`n`
axis. -/
theorem bootstrap_entries_range (npoints l : ℕ) (blocks : List (List ℕ))
    (hl : 1 ≤ l) (hln : l ≤ npoints)
    (hs : ∀ row ∈ blocks, ∀ s ∈ row, s < npoints) :
    ∀ row ∈ bootstrap_ts_indexes npoints l blocks, ∀ e ∈ row,
      -((l : ℤ) - 1) ≤ e ∧ e ≤ (npoints : ℤ) - 1 := by
  intro row hrow e he
  have h := mem_bootstrap_bound hln hs row hrow e he
  omega

/-- Witness for C9 at `n=12`, `l=4`, one replicate with starts `[10,0,0]`. -/
theorem bootstrap_entries_range_witness :
    (1 ≤ 4 ∧ 4 ≤ 12 ∧ ∀ row ∈ ([[10, 0, 0]] : List (List ℕ)), ∀ s ∈ row, s < 12) ∧
    (∀ row ∈ bootstrap_ts_indexes 12 4 [[10, 0, 0]], ∀ e ∈ row,
      -((4 : ℤ) - 1) ≤ e ∧ e ≤ (12 : ℤ) - 1) :=
  ⟨by decide, bootstrap_entries_range 12 4 [[10, 0, 0]] (by decide) (by decide) (by decide)⟩

/-- C1 counterexample: with `n=12`, `l=4` and first drawn start `10`, the
returned matrix contains the entry `-2`, which is not in `[0, 12)`: the raw
entries of the index matrix are not all in `[0, n)`. -/
theorem bootstrap_entry_not_in_range :
    ∃ row ∈ bootstrap_ts_indexes 12 4 [[10, 0, 0]], ∃ e ∈ row, ¬ (0 ≤ e ∧ e < 12) := by
  decide

/-- C1 (amended): every entry of the matrix, read with numpy's negative-index
aliasing (`e + n` when `e < 0`), addresses a valid position in `[0, n)`. -/
theorem bootstrap_alias_range (npoints l : ℕ) (blocks : List (List ℕ))
    (hl : 1 ≤ l) (hln : l ≤ npoints)
    (hs : ∀ row ∈ blocks, ∀ s ∈ row, s < npoints) :
    ∀ row ∈ bootstrap_ts_indexes npoints l blocks, ∀ e ∈ row,
      0 ≤ npAlias npoints e ∧ npAlias npoints e < (npoints : ℤ) := by
  intro row hrow e he
  have h := mem_bootstrap_bound hln hs row hrow e he
  unfold npAlias
  split <;> omega

/-- Witness for C1's amended theorem at `n=5`, `l=3`, starts `[4,1]`. -/
theorem bootstrap_alias_range_witness :
    (1 ≤ 3 ∧ 3 ≤ 5 ∧ ∀ row ∈ ([[4, 1]] : List (List ℕ)), ∀ s ∈ row, s < 5) ∧
    (∀ row ∈ bootstrap_ts_indexes 5 3 [[4, 1]], ∀ e ∈ row,
      0 ≤ npAlias 5 e ∧ npAlias 5 e < (5 : ℤ)) :=
  ⟨by decide, bootstrap_alias_range 5 3 [[4, 1]] (by decide) (by decide) (by decide)⟩

/-- C2: for any `method` other than `'circular'` the guarded branch never
runs, and the trailing `return indexes[..., :npoints]` reads the unbound
local `indexes`: the call fails with an `UnboundLocalError` — an error, but
not the specification's `UnsupportedMethodError`. -/
theorem bootstrap_unknown_method_unbound (npoints l : ℕ) (blocks : List (List ℕ))
    (method : String) (h : method ≠ "circular") :
    bootstrap_ts_indexes_m npoints l blocks method = Except.error PyError.unboundLocal ∧
    bootstrap_ts_indexes_m npoints l blocks method ≠
      Except.error PyError.unsupportedMethod := by
  unfold bootstrap_ts_indexes_m
  rw [if_neg h]
  exact ⟨rfl, by simp⟩

/-- Witness for C2 at `method="block"`. -/
theorem bootstrap_unknown_method_unbound_witness :
    ("block" ≠ "circular") ∧
    (bootstrap_ts_indexes_m 12 4 [[10, 0, 0]] "block" = Except.error PyError.unboundLocal ∧
     bootstrap_ts_indexes_m 12 4 [[10, 0, 0]] "block" ≠
       Except.error PyError.unsupportedMethod) :=
  ⟨by decide, bootstrap_unknown_method_unbound 12 4 [[10, 0, 0]] "block" (by decide)⟩

/-- C5 counterexample: with `n=12`, `l=4`, one replicate whose first drawn
start is `10`, the first four entries of the produced row are `[-2,-1,0,1]`
(the start is circ-shifted to `10 - 12 = -2`), not `[10,11,0,1]`. -/
theorem bootstrap_concrete_first_block_raw :
    ((bootstrap_ts_indexes 12 4 [[10, 0, 0]]).headD []).take 4 ≠ [10, 11, 0, 1] ∧
    ((bootstrap_ts_indexes 12 4 [[10, 0, 0]]).headD []).take 4 = [-2, -1, 0, 1] := by
  decide

/-- C5 (amended): for `n=12`, `l=4`, `n_samples=1` with first drawn start `10`
and arbitrary remaining starts, the replicate row has exactly 12 entries, its
first four entries are `[-2,-1,0,1]`, and under numpy's negative-index
aliasing those address positions `[10,11,0,1]`, i.e. `(10+i) mod 12` for
`i = 0..3`. -/
theorem expand_block_cons (l : ℕ) (s : ℤ) (bs : List ℤ) :
    expand_block l (s :: bs) =
      (List.range l).map (fun ii : ℕ => s + (ii : ℤ)) ++ expand_block l bs := by
  rw [expand_block, expand_block, List.flatMap_cons]

theorem expand_block_length (l : ℕ) (block : List ℤ) :
    (expand_block l block).length = block.length * l := by
  induction block with
  | nil => simp [expand_block]
  | cons s bs ih =>
      rw [expand_block_cons, List.length_append, List.length_map, List.length_range, ih,
        List.length_cons]
      ring

theorem bootstrap_concrete_first_block (s1 s2 : ℕ) :
    ((bootstrap_ts_indexes 12 4 [[10, s1, s2]]).headD []).length = 12 ∧
    ((bootstrap_ts_indexes 12 4 [[10, s1, s2]]).headD []).take 4 = [-2, -1, 0, 1] ∧
    (((bootstrap_ts_indexes 12 4 [[10, s1, s2]]).headD []).take 4).map (npAlias 12) =
      [10, 11, 0, 1] := by
  have hexp : (bootstrap_ts_indexes 12 4 [[10, s1, s2]]).headD [] =
      (([-2, -1, 0, 1] : List ℤ) ++
        expand_block 4 [circ1 12 4 s1, circ1 12 4 s2]).take 12 := by
    show (expand_block 4 [circ1 12 4 10, circ1 12 4 s1, circ1 12 4 s2]).take 12 =
      (([-2, -1, 0, 1] : List ℤ) ++ expand_block 4 [circ1 12 4 s1, circ1 12 4 s2]).take 12
    have hhead : (List.range 4).map (fun ii : ℕ => circ1 12 4 10 + (ii : ℤ)) =
        ([-2, -1, 0, 1] : List ℤ) := by decide
    rw [expand_block_cons, hhead]
  have hlen8 : (expand_block 4 [circ1 12 4 s1, circ1 12 4 s2]).length = 8 := by
    rw [expand_block_length]
    rfl
  have htake : ((bootstrap_ts_indexes 12 4 [[10, s1, s2]]).headD []).take 4 =
      ([-2, -1, 0, 1] : List ℤ) := by
    rw [hexp, List.take_take]
    rfl
  refine ⟨?_, htake, ?_⟩
  · rw [hexp, List.length_take, List.length_append, hlen8]
    rfl
  · rw [htake]
    decide

/-- Witness for C5's amended theorem at remaining starts `3`, `7`. -/
theorem bootstrap_concrete_first_block_witness :
    ((bootstrap_ts_indexes 12 4 [[10, 3, 7]]).headD []).length = 12 ∧
    ((bootstrap_ts_indexes 12 4 [[10, 3, 7]]).headD []).take 4 = [-2, -1, 0, 1] ∧
    (((bootstrap_ts_indexes 12 4 [[10, 3, 7]]).headD []).take 4).map (npAlias 12) =
      [10, 11, 0, 1] :=
  bootstrap_concrete_first_block 3 7

/-- C6 counterexample: with `n = l = 3` and drawn start `1`, the produced row
is `[-2,-1,0]`; no offset `t ∈ [0,3)` makes its entries equal `(t+i) mod 3`,
because the raw entries are negative while `(t+i) mod 3` never is. -/
theorem bootstrap_full_block_not_rotation :
    bootstrap_ts_indexes 3 3 [[1]] = [[-2, -1, 0]] ∧
    ¬ ∃ t : Fin 3, ∀ i : Fin 3,
      ([(-2 : ℤ), -1, 0].getD i.val 0) = ((t.val : ℤ) + (i.val : ℤ)) % 3 := by
  decide

/-- C6 (amended): when `l = n`, each replicate row consists of `n` entries
`c, c+1, ..., c+n-1` for the circ-adjusted start `c ∈ (-n, 0]`, and under
numpy's negative-index aliasing entry `i` addresses position `(t + i) mod n`
where `t ∈ [0, n)` is the drawn start of the row's first block. -/
theorem bootstrap_full_block_rotation (n : ℕ) (blocks : List (List ℕ))
    (hn : 1 ≤ n)
    (hs : ∀ row ∈ blocks, ∀ s ∈ row, s < n)
    (hne : ∀ row ∈ blocks, row ≠ []) :
    ∀ row ∈ bootstrap_ts_indexes n n blocks,
      row.length = n ∧ ∃ t, t < n ∧ ∀ i, i < n →
        npAlias n (row.getD i 0) = (((t + i) % n : ℕ) : ℤ) := by
  intro row hrow
  unfold bootstrap_ts_indexes circ at hrow
  rw [List.mem_map] at hrow
  obtain ⟨block, hblock, rfl⟩ := hrow
  rw [List.mem_map] at hblock
  obtain ⟨r0, hr0, rfl⟩ := hblock
  obtain ⟨s0, rest, rfl⟩ := List.exists_cons_of_ne_nil (hne r0 hr0)
  have hs0 : s0 < n := hs _ hr0 s0 (by simp)
  have hfirst : expand_block n ((s0 :: rest).map (circ1 n n)) =
      (List.range n).map (fun ii : ℕ => circ1 n n s0 + (ii : ℤ)) ++
        expand_block n (rest.map (circ1 n n)) := by
    rw [List.map_cons, expand_block_cons]
  have hrow_eq : (expand_block n ((s0 :: rest).map (circ1 n n))).take n =
      (List.range n).map (fun ii : ℕ => circ1 n n s0 + (ii : ℤ)) := by
    rw [hfirst]
    exact List.take_left' (by simp)
  rw [hrow_eq]
  refine ⟨by simp, s0, hs0, ?_⟩
  intro i hi
  have hg : ((List.range n).map (fun ii : ℕ => circ1 n n s0 + (ii : ℤ))).getD i 0 =
      circ1 n n s0 + (i : ℤ) := by
    rw [List.getD_eq_getElem _ _ (by simpa using hi), List.getElem_map, List.getElem_range]
  rw [hg]
  unfold circ1 npAlias
  rcases Nat.lt_or_ge (s0 + i) n with hlt | hge
  · rw [Nat.mod_eq_of_lt hlt]
    split <;> split <;> omega
  · rw [Nat.mod_eq_sub_mod hge, Nat.mod_eq_of_lt (by omega)]
    split <;> split <;> omega

/-- Witness for C6's amended theorem at `n = l = 3`, start `1`. -/
theorem bootstrap_full_block_rotation_witness :
    (1 ≤ 3 ∧ (∀ row ∈ ([[1]] : List (List ℕ)), ∀ s ∈ row, s < 3) ∧
      (∀ row ∈ ([[1]] : List (List ℕ)), row ≠ [])) ∧
    (∀ row ∈ bootstrap_ts_indexes 3 3 [[1]],
      row.length = 3 ∧ ∃ t, t < 3 ∧ ∀ i, i < 3 →
        npAlias 3 (row.getD i 0) = (((t + i) % 3 : ℕ) : ℤ)) :=
  ⟨by decide, bootstrap_full_block_rotation 3 [[1]] (by decide) (by decide) (by decide)⟩

/-! ## Theorems about the block-length selector -/

/-- C4: with at least two lags significant (`|rho_k| > rho_crit`) and no
window of `Kn` consecutive insignificant lags, `b_star` does not set `mhat`
to 1 plus the last significant lag index: `max(np.where(...))` leaves `mhat`
an index array, and `min(2*mhat, mmax)` raises a `ValueError` (ambiguous
truth value of a multi-element comparison). Here all 7 lags are significant
at threshold `1/5` with `Kn=5`, `mmax=7`; the claimed behaviour would be
`mhat = 7`. -/
theorem computeMhatM_crash_on_two_significant :
    computeMhatM [Rat.divInt 9 10, Rat.divInt 8 10, Rat.divInt 7 10, Rat.divInt 6 10,
        Rat.divInt 5 10, Rat.divInt 4 10, Rat.divInt 3 10] (Rat.divInt 1 5) 5 7 =
      Except.error PyError.valueError ∧
    mhat_calc [Rat.divInt 9 10, Rat.divInt 8 10, Rat.divInt 7 10, Rat.divInt 6 10,
        Rat.divInt 5 10, Rat.divInt 4 10, Rat.divInt 3 10] (Rat.divInt 1 5) 5 7 =
      MhatR.arr [1, 2, 3, 4, 5, 6, 7] := by
  exact ⟨rfl, by decide⟩

/-- C3 counterexample: with `round=False` the clamping lines are skipped
entirely, so a raw estimate below 1 (or above `Bmax`) is returned as-is:
`b_star` output is not always within `[1, Bmax]`. -/
theorem b_star_clamp_no_round_escapes :
    b_star_clamp [Rat.divInt 1 2] 24 false = [Rat.divInt 1 2] ∧
    ¬ (1 ≤ Rat.divInt 1 2) := by
  exact ⟨rfl, by decide⟩

/-- `roundHalfEven` of a value in `[1, B]` (with `B` an integer ≥ 1) stays
in `[1, B]`. -/
theorem roundHalfEven_mem (B : ℤ) (z : ℚ) (h1 : 1 ≤ z) (h2 : z ≤ (B : ℚ)) :
    1 ≤ roundHalfEven z ∧ roundHalfEven z ≤ B := by
  have hrw : roundHalfEven z =
      if z - (⌊z⌋ : ℚ) < 1/2 then ⌊z⌋
      else if 1/2 < z - (⌊z⌋ : ℚ) then ⌊z⌋ + 1
      else if 2 ∣ ⌊z⌋ then ⌊z⌋ else ⌊z⌋ + 1 := rfl
  have hf1 : (⌊z⌋ : ℚ) ≤ z := Int.floor_le z
  have hf2 : z < (⌊z⌋ : ℚ) + 1 := Int.lt_floor_add_one z
  have hfl : 1 ≤ ⌊z⌋ := by
    have h := Int.le_floor.mpr (show ((1 : ℤ) : ℚ) ≤ z by exact_mod_cast h1)
    simpa using h
  have hfu : ⌊z⌋ ≤ B := by
    have h := Int.floor_le_floor h2
    simpa [Int.floor_intCast] using h
  rw [hrw]
  split_ifs with ha hb hc
  · exact ⟨hfl, hfu⟩
  · refine ⟨by omega, ?_⟩
    push_neg at ha
    have hlt : (⌊z⌋ : ℚ) < (B : ℚ) := by linarith
    have hltz : ⌊z⌋ < B := by exact_mod_cast hlt
    omega
  · exact ⟨hfl, hfu⟩
  · refine ⟨by omega, ?_⟩
    push_neg at ha
    have hlt : (⌊z⌋ : ℚ) < (B : ℚ) := by linarith
    have hltz : ⌊z⌋ < B := by exact_mod_cast hlt
    omega

/-- The two mask assignments of lines 69-70 land every value in `[1, Bmax]`
whenever `1 ≤ Bmax`. -/
theorem clamp_stage_bounds (Bq x : ℚ) (hB : 1 ≤ Bq) :
    1 ≤ (if (if Bq < x then Bq else x) < 1 then (1 : ℚ) else if Bq < x then Bq else x) ∧
    (if (if Bq < x then Bq else x) < 1 then (1 : ℚ) else if Bq < x then Bq else x) ≤ Bq := by
  split_ifs <;> constructor <;> linarith

/-- C3 (amended): the clamp to `[1, Bmax]` is applied only when `round` is
set; in that case (for an integer `Bmax ≥ 1`, as the default
`Bmax = ceil(min(3*sqrt(n), n/3))` always is) every component of the
`b_star` output does lie in `[1, Bmax]`. With `round=False` the raw
estimates pass through unclamped. -/
theorem b_star_clamp_round_bounds (estimates : List ℚ) (B : ℤ) (hB : 1 ≤ B) :
    ∀ v ∈ b_star_clamp estimates (B : ℚ) true, 1 ≤ v ∧ v ≤ (B : ℚ) := by
  intro v hv
  unfold b_star_clamp at hv
  rw [if_pos rfl, List.map_map, List.map_map, List.mem_map] at hv
  obtain ⟨x, hx, rfl⟩ := hv
  simp only [Function.comp_apply]
  have hB1 : (1 : ℚ) ≤ (B : ℚ) := by exact_mod_cast hB
  have hz := clamp_stage_bounds (B : ℚ) x hB1
  have hmem := roundHalfEven_mem B _ hz.1 hz.2
  constructor
  · exact_mod_cast hmem.1
  · exact_mod_cast hmem.2

/-- Witness for C3's amended theorem: estimates `[5/2, 100, 1/2]`,
`Bmax = 24`, `round=True`. -/
theorem b_star_clamp_round_bounds_witness :
    (1 ≤ (24 : ℤ)) ∧
    (∀ v ∈ b_star_clamp [Rat.divInt 5 2, 100, Rat.divInt 1 2] ((24 : ℤ) : ℚ) true,
      1 ≤ v ∧ v ≤ ((24 : ℤ) : ℚ)) :=
  ⟨by decide, b_star_clamp_round_bounds [Rat.divInt 5 2, 100, Rat.divInt 1 2] 24 (by decide)⟩

/-! ## Theorems about the bootstrap runner and the difference bootstrap -/

/-- C7: when all bundle members share a time-axis length, replicate `i` of
`ts_boot` is the statistic applied to the bundle in which EVERY member was
gathered with the SAME index row `i`; no two members of a replicate are
resampled with different index sequences. -/
theorem ts_boot_same_row_all_members {β : Type} (dlist : List Member)
    (func : List Member → β) (l : ℕ) (blocks : List (List ℕ)) (i : ℕ)
    (hlen : (dlist.map timeLen).dedup.length = 1) :
    ∃ res, ts_boot dlist func l blocks none = Except.ok res ∧
      res[i]? = ((bootstrap_ts_indexes (timeLen (dlist.headD [])) l blocks)[i]?).map
        (fun row => func (dlist.map (fun d => gatherT d row))) := by
  unfold ts_boot
  rw [if_pos hlen]
  exact ⟨_, rfl, by rw [List.getElem?_map]⟩

/-- Witness for C7: two single-row members with time length 2, one replicate. -/
theorem ts_boot_same_row_all_members_witness :
    ((([[[1, 2]], [[3, 4]]] : List Member).map timeLen).dedup.length = 1) ∧
    (∃ res, ts_boot ([[[1, 2]], [[3, 4]]] : List Member) (fun ds => ds) 1 [[0, 1]] none =
        Except.ok res ∧
      res[0]? = ((bootstrap_ts_indexes
          (timeLen (([[[1, 2]], [[3, 4]]] : List Member).headD [])) 1 [[0, 1]])[0]?).map
        (fun row => ([[[1, 2]], [[3, 4]]] : List Member).map (fun d => gatherT d row))) :=
  ⟨by decide, ts_boot_same_row_all_members ([[[1, 2]], [[3, 4]]] : List Member)
    (fun ds => ds) 1 [[0, 1]] 0 (by decide)⟩

/-- Normal form of `ts_boot` with a caller-supplied `out` long enough for
all replicates. -/
theorem ts_boot_some_out_eq {β : Type} (dlist : List Member) (func : List Member → β)
    (l : ℕ) (blocks : List (List ℕ)) (out : List β)
    (hlen : (dlist.map timeLen).dedup.length = 1)
    (hout : blocks.length ≤ out.length) :
    ts_boot dlist func l blocks (some out) = Except.ok
      ((bootstrap_ts_indexes (timeLen (dlist.headD [])) l blocks).map
        (fun row => func (dlist.map (fun d => gatherT d row))) ++
        out.drop blocks.length) := by
  unfold ts_boot
  rw [if_pos hlen]
  have hlen2 : ((bootstrap_ts_indexes (timeLen (dlist.headD [])) l blocks).map
      (fun row => func (dlist.map (fun d => gatherT d row)))).length = blocks.length := by
    rw [List.length_map]
    unfold bootstrap_ts_indexes circ
    rw [List.length_map, List.length_map]
  show (if _ ≤ _ then _ else _) = _
  rw [hlen2, if_pos hout]

/-- Every row of the transposed `(n_reps, spatial)` array has length
`n_reps`. -/
theorem npTranspose_mem_length (m : List (List ℚ)) :
    ∀ r ∈ npTranspose m, r.length = m.length := by
  intro r hr
  unfold npTranspose at hr
  rw [List.mem_map] at hr
  obtain ⟨s, hs, rfl⟩ := hr
  exact List.length_map _ _

/-- Elements of a `zipWith` come from elements of the two lists. -/
theorem mem_zipWith {α β γ : Type} (f : α → β → γ) :
    ∀ (as : List α) (bs : List β), ∀ c ∈ List.zipWith f as bs,
      ∃ a ∈ as, ∃ b ∈ bs, c = f a b := by
  intro as
  induction as with
  | nil => intro bs c hc; simp at hc
  | cons a as ih =>
      intro bs c hc
      cases bs with
      | nil => simp at hc
      | cons b bs =>
          rw [List.zipWith_cons_cons] at hc
          rcases List.mem_cons.mp hc with h | h
          · exact ⟨a, by simp, b, by simp, h⟩
          · obtain ⟨a', ha', b', hb', rfl⟩ := ih bs c h
            exact ⟨a', by simp [ha'], b', by simp [hb'], rfl⟩

/-- Pointwise, the `> 0` and `≤ 0` indicators of a difference sum to 1, so
their sums over the replicate axis partition its length. -/
theorem indicator_partition_sum (ds : List ℚ) :
    (ds.map (fun d => if 0 < d then (1 : ℚ) else 0)).sum +
      (ds.map (fun d => if d ≤ 0 then (1 : ℚ) else 0)).sum = (ds.length : ℚ) := by
  induction ds with
  | nil => simp
  | cons d ds ih =>
      simp only [List.map_cons, List.sum_cons, List.length_cons]
      push_cast
      rcases le_or_lt d 0 with h | h
      · rw [if_neg (not_lt.mpr h), if_pos h]
        linarith
      · rw [if_pos h, if_neg (not_le.mpr h)]
        linarith

/-- Means of the two complementary indicators over a nonempty replicate
axis add to exactly 1. -/
theorem pvalue_partition (ds : List ℚ) (hne : ds.length ≠ 0) :
    npMean (ds.map (fun d => if 0 < d then (1 : ℚ) else 0)) +
      npMean (ds.map (fun d => if d ≤ 0 then (1 : ℚ) else 0)) = 1 := by
  unfold npMean
  rw [List.length_map, List.length_map, div_add_div_same, indicator_partition_sum]
  exact div_self (Nat.cast_ne_zero.mpr hne)

/-- The `p_gt`/`p_ltq` maps over a list of difference rows of equal nonzero
length zip-add to the all-ones vector. -/
theorem pvalues_zip_partition (diffs : List (List ℚ)) (n_reps : ℕ) (hn : 1 ≤ n_reps)
    (hlen : ∀ ds ∈ diffs, ds.length = n_reps) :
    (diffs.map (fun ds => npMean (ds.map (fun d => if 0 < d then (1 : ℚ) else 0)))).zipWith
        (fun a b => a + b)
      (diffs.map (fun ds => npMean (ds.map (fun d => if d ≤ 0 then (1 : ℚ) else 0)))) =
    List.replicate
      (diffs.map (fun ds => npMean (ds.map (fun d => if 0 < d then (1 : ℚ) else 0)))).length
      1 := by
  rw [List.zipWith_map_left, List.zipWith_map_right, List.zipWith_same, List.length_map,
    List.eq_replicate_iff]
  refine ⟨by simp, ?_⟩
  intro b hb
  rw [List.mem_map] at hb
  obtain ⟨ds, hds, rfl⟩ := hb
  have h := hlen ds hds
  exact pvalue_partition ds (by omega)

/-- C8: whenever `run_boot_within_isc_diff` succeeds (members of each group
share a time length, one start row per replicate, at least one replicate),
the returned one-sided empirical p-value vectors satisfy
`p_gt + p_ltq = 1` elementwise: the replicate axis is partitioned by the
strict sign of `distA - distB`. -/
theorem run_boot_pvalues_partition (calc_mean_isc : List Member → List ℚ)
    (A B : List Member) (l n_reps : ℕ) (blocksA blocksB : List (List ℕ))
    (out_arr : List (List ℚ))
    (hA : (A.map timeLen).dedup.length = 1)
    (hB : (B.map timeLen).dedup.length = 1)
    (hbA : blocksA.length = n_reps) (hbB : blocksB.length = n_reps)
    (hn : 1 ≤ n_reps) :
    ∃ res, run_boot_within_isc_diff calc_mean_isc A B l n_reps blocksA blocksB out_arr =
        Except.ok res ∧
      res.p_gt.zipWith (fun a b => a + b) res.p_ltq =
        List.replicate res.p_gt.length 1 := by
  have houtA : blocksA.length ≤
      (List.replicate n_reps (List.replicate (A.headD []).length (0 : ℚ))).length := by
    simp [hbA]
  have houtB : blocksB.length ≤
      (List.replicate n_reps (List.replicate (A.headD []).length (0 : ℚ))).length := by
    simp [hbB]
  unfold run_boot_within_isc_diff
  dsimp only
  rw [ts_boot_some_out_eq A calc_mean_isc l blocksA _ hA houtA,
    ts_boot_some_out_eq B calc_mean_isc l blocksB _ hB houtB]
  rw [hbA, hbB, List.drop_replicate, Nat.sub_self, List.replicate_zero, List.append_nil,
    List.append_nil]
  refine ⟨_, rfl, ?_⟩
  have hlenA : ((bootstrap_ts_indexes (timeLen (A.headD [])) l blocksA).map
      (fun row => calc_mean_isc (A.map (fun d => gatherT d row)))).length = n_reps := by
    rw [List.length_map]
    unfold bootstrap_ts_indexes circ
    rw [List.length_map, List.length_map, hbA]
  have hlenB : ((bootstrap_ts_indexes (timeLen (B.headD [])) l blocksB).map
      (fun row => calc_mean_isc (B.map (fun d => gatherT d row)))).length = n_reps := by
    rw [List.length_map]
    unfold bootstrap_ts_indexes circ
    rw [List.length_map, List.length_map, hbB]
  apply pvalues_zip_partition _ n_reps hn
  intro ds hds
  obtain ⟨ra, hra, rb, hrb, rfl⟩ := mem_zipWith _ _ _ ds hds
  rw [List.length_zipWith]
  rw [npTranspose_mem_length _ ra hra, npTranspose_mem_length _ rb hrb, hlenA, hlenB,
    Nat.min_self]

/-- Witness for C8: two two-member bundles of one spatial row and two
timepoints, one replicate. -/
theorem run_boot_pvalues_partition_witness :
    ((([[[1, 2]], [[2, 3]]] : List Member).map timeLen).dedup.length = 1 ∧
     (([[[4, 1]], [[2, 2]]] : List Member).map timeLen).dedup.length = 1 ∧
     ([[0, 1]] : List (List ℕ)).length = 1 ∧ ([[1, 0]] : List (List ℕ)).length = 1 ∧
     1 ≤ 1) ∧
    (∃ res, run_boot_within_isc_diff (fun ds => [(ds.headD []).length])
        ([[[1, 2]], [[2, 3]]] : List Member) ([[[4, 1]], [[2, 2]]] : List Member)
        1 1 [[0, 1]] [[1, 0]] [] = Except.ok res ∧
      res.p_gt.zipWith (fun a b => a + b) res.p_ltq =
        List.replicate res.p_gt.length 1) :=
  ⟨⟨by decide, by decide, by decide, by decide, by decide⟩,
    run_boot_pvalues_partition (fun ds => [(ds.headD []).length])
      ([[[1, 2]], [[2, 3]]] : List Member) ([[[4, 1]], [[2, 2]]] : List Member)
      1 1 [[0, 1]] [[1, 0]] [] (by decide) (by decide) (by decide) (by decide)
      (by decide)⟩

/-- C10: the caller-supplied `out_arr` argument is rebound to a fresh zero
array before any use (line 105), so the result of
`run_boot_within_isc_diff` does not depend on it in any way, and the
caller's buffer is never read or written. -/
theorem run_boot_out_arr_unused (calc_mean_isc : List Member → List ℚ)
    (A B : List Member) (l n_reps : ℕ) (blocksA blocksB : List (List ℕ))
    (o1 o2 : List (List ℚ)) :
    run_boot_within_isc_diff calc_mean_isc A B l n_reps blocksA blocksB o1 =
      run_boot_within_isc_diff calc_mean_isc A B l n_reps blocksA blocksB o2 := rfl

/-- Witness for C10 at concrete arguments (two different caller buffers). -/
theorem run_boot_out_arr_unused_witness :
    run_boot_within_isc_diff (fun ds => [(ds.headD []).length])
        ([[[1, 2]]] : List Member) ([[[3, 4]]] : List Member) 1 1 [[0, 0]] [[1, 1]]
        [[5, 5]] =
      run_boot_within_isc_diff (fun ds => [(ds.headD []).length])
        ([[[1, 2]]] : List Member) ([[[3, 4]]] : List Member) 1 1 [[0, 0]] [[1, 1]] [] :=
  run_boot_out_arr_unused (fun ds => [(ds.headD []).length])
    ([[[1, 2]]] : List Member) ([[[3, 4]]] : List Member) 1 1 [[0, 0]] [[1, 1]]
    [[5, 5]] []

end PyCorr
